import Mathlib

/-!
Shallow embedding of the OMR scanning pipeline
(services/omr-python/app/pipeline.py and services/omr-python/app/main.py).

Image-processing primitives (decoding, warping, Hough circle detection,
per-bubble grayscale sampling) are abstracted into an oracle record holding
their outcomes for one invocation; all control flow, thresholds, clustering,
ordering and warning logic is translated directly from the source.
Python floats are modelled as exact rationals.
-/

/-- A 2-D point with rational coordinates (models a row of an (n,2) float array). -/
structure Pt where
  x : ℚ
  y : ℚ
  deriving DecidableEq

/-- Coordinate sum, the quantity numpy computes as points.sum(axis=1). -/
def ptSum (p : Pt) : ℚ := p.x + p.y

/-- Coordinate difference y - x, the quantity numpy computes as np.diff(points, axis=1). -/
def ptDiff (p : Pt) : ℚ := p.y - p.x

/-- First element of a list attaining the minimal value of f, matching
np.argmin semantics (strict comparison keeps the earliest minimum); the
default is returned only on the empty list. -/
def argMinD {α : Type} (f : α → ℚ) (dflt : α) : List α → α
  | [] => dflt
  | p :: ps => ps.foldl (fun best q => if f q < f best then q else best) p

/-- First element of a list attaining the maximal value of f, matching
np.argmax semantics. -/
def argMaxD {α : Type} (f : α → ℚ) (dflt : α) : List α → α
  | [] => dflt
  | p :: ps => ps.foldl (fun best q => if f best < f q then q else best) p

/-- Default point used only for out-of-domain lookups. -/
def pt0 : Pt := ⟨0, 0⟩

/-- Embeds pipeline.py _order_points: rect[0] = argmin of coordinate sums,
rect[1] = argmin of differences, rect[2] = argmax of sums, rect[3] = argmax
of differences. -/
def _order_points (pts : List Pt) : List Pt :=
  [argMinD ptSum pt0 pts, argMinD ptDiff pt0 pts, argMaxD ptSum pt0 pts, argMaxD ptDiff pt0 pts]

/-- Descending order relation on rationals (b ≤ a), used to model
Python sorted(..., reverse=True) on fill scores. -/
def descQ (a b : ℚ) : Prop := b ≤ a

instance : DecidableRel descQ := fun a b => inferInstanceAs (Decidable (b ≤ a))

instance : IsTotal ℚ descQ := ⟨fun a b => le_total b a⟩

instance : IsTrans ℚ descQ := ⟨fun _ _ _ hab hbc => le_trans hbc hab⟩

instance : IsAntisymm ℚ descQ := ⟨fun _ _ h1 h2 => le_antisymm h2 h1⟩

/-- Descending order on (option index, fill) pairs, comparing fills only;
the stable insertion sort over this relation models Python stable sorted
with key fill, reverse=True. -/
def descPair (a b : ℕ × ℚ) : Prop := b.2 ≤ a.2

instance : DecidableRel descPair := fun a b => inferInstanceAs (Decidable (b.2 ≤ a.2))

/-- Fill values of a row sorted descending. -/
def sortedVals (fills : List ℚ) : List ℚ := fills.insertionSort descQ

/-- Row densities (option index, fill) sorted descending by fill, stably,
as in _scan_answers: sorted(raw_densities, key=item[1], reverse=True). -/
def rowSorted (fills : List ℚ) : List (ℕ × ℚ) := fills.enum.insertionSort descPair

/-- FORM_LAYOUT minRelativeRatio. -/
def minRelativeRatio : ℚ := 22/100

/-- FORM_LAYOUT minGapRatio. -/
def minGapRatio : ℚ := 8/100

/-- Absolute ink floor computed in _scan_answers:
max(0.08, min(0.9, float(threshold))). -/
def minInkThreshold (threshold : ℚ) : ℚ := max (8/100) (min (9/10) threshold)

/-- Models the expression float(options.get("threshold") or 0.22) in
run_pipeline: an absent or falsy (zero) threshold is replaced by 0.22. -/
def pyOrThreshold (t : Option ℚ) : ℚ :=
  match t with
  | none => 22/100
  | some v => if v = 0 then 22/100 else v

/-- The absolute ink floor as a function of the caller-requested threshold
field, composing the run_pipeline default with the _scan_answers clamp. -/
def effectiveFloor (requested : Option ℚ) : ℚ := minInkThreshold (pyOrThreshold requested)

/-- Per-row decision of _scan_answers: sort the five densities descending,
take top and second, compare top against the absolute floor, contrast
(top minus mean of the others) against minRelativeRatio and confidence
(top minus second) against minGapRatio; on failure retry with the tolerant
fallback. Returns the selected option index, or none. -/
def scanRowSelect (threshold : ℚ) (fills : List ℚ) : Option ℕ :=
  match rowSorted fills with
  | top :: second :: rest =>
    let otherScores : List ℚ := second.2 :: rest.map Prod.snd
    let rowMean : ℚ := otherScores.sum / (otherScores.length : ℚ)
    let confidence : ℚ := top.2 - second.2
    let contrast : ℚ := top.2 - rowMean
    if minInkThreshold threshold ≤ top.2 ∧ minRelativeRatio ≤ contrast ∧
        minGapRatio ≤ confidence then
      some top.1
    else if max (5/100) (minInkThreshold threshold - 5/100) ≤ top.2 ∧
        minRelativeRatio * (5/4) ≤ contrast ∧ minGapRatio * (5/4) ≤ confidence then
      some top.1
    else
      none
  | _ => none

/-- Ink (top fill) and contrast (top minus mean of the rest) of a row,
the per-question diagnostics stored in the details records. -/
def rowInkContrast (fills : List ℚ) : ℚ × ℚ :=
  match rowSorted fills with
  | top :: second :: rest =>
    let otherScores : List ℚ := second.2 :: rest.map Prod.snd
    (top.2, top.2 - otherScores.sum / (otherScores.length : ℚ))
  | _ => (0, 0)

/-- Decision condition on an already-descending-sorted list of fills;
used to characterise scanRowSelect. -/
def selPredSorted (threshold : ℚ) : List ℚ → Prop
  | top :: rest =>
    (minInkThreshold threshold ≤ top ∧
      minRelativeRatio ≤ top - rest.sum / (rest.length : ℚ) ∧
      minGapRatio ≤ top - rest.headD 0) ∨
    (max (5/100) (minInkThreshold threshold - 5/100) ≤ top ∧
      minRelativeRatio * (5/4) ≤ top - rest.sum / (rest.length : ℚ) ∧
      minGapRatio * (5/4) ≤ top - rest.headD 0)
  | [] => False

/-- Top (highest) fill of a row, as the specification describes it. -/
def specTop (fills : List ℚ) : ℚ := (sortedVals fills).headD 0

/-- Second-highest fill of a row. -/
def specSecond (fills : List ℚ) : ℚ := ((sortedVals fills).drop 1).headD 0

/-- Mean of the four non-top fills of a five-score row. -/
def specOtherMean (fills : List ℚ) : ℚ := ((sortedVals fills).drop 1).sum / 4

/-- The strict selection test exactly as the specification words it:
top at least the clamped floor, contrast at least 0.22, confidence at
least 0.08. -/
def specStrictSel (threshold : ℚ) (fills : List ℚ) : Prop :=
  minInkThreshold threshold ≤ specTop fills ∧
  (22:ℚ)/100 ≤ specTop fills - specOtherMean fills ∧
  (8:ℚ)/100 ≤ specTop fills - specSecond fills

/-- The tolerant fallback exactly as the specification words it: top within
0.05 of the floor, contrast and confidence at least 1.25 times their
minimums. -/
def specTolerantSel (threshold : ℚ) (fills : List ℚ) : Prop :=
  minInkThreshold threshold - 5/100 ≤ specTop fills ∧
  (5/4) * ((22:ℚ)/100) ≤ specTop fills - specOtherMean fills ∧
  (5/4) * ((8:ℚ)/100) ≤ specTop fills - specSecond fills

/-- ASCII lower-casing of one character, as Python str.lower acts on the
ASCII range. -/
def charLower (c : Char) : Char :=
  if 65 ≤ c.toNat ∧ c.toNat ≤ 90 then Char.ofNat (c.toNat + 32) else c

/-- ASCII upper-casing of one character, as Python str.upper acts on the
ASCII range. -/
def charUpper (c : Char) : Char :=
  if 97 ≤ c.toNat ∧ c.toNat ≤ 122 then Char.ofNat (c.toNat - 32) else c

/-- ASCII decimal digit test, as Python str.isdigit acts on the ASCII
range. -/
def charIsDigit (c : Char) : Bool := decide (48 ≤ c.toNat ∧ c.toNat ≤ 57)

/-- Whitespace test covering the characters Python str.strip removes in
the ASCII range. -/
def charIsSpace (c : Char) : Bool := decide (c.toNat = 32 ∨ (9 ≤ c.toNat ∧ c.toNat ≤ 13))

/-- Python str.lower. -/
def strLower (s : String) : String := ⟨s.data.map charLower⟩

/-- Python str.upper. -/
def strUpper (s : String) : String := ⟨s.data.map charUpper⟩

/-- Python str.startswith. -/
def strStartsWith (s p : String) : Bool := p.data.isPrefixOf s.data

/-- Python str.strip: remove leading and trailing whitespace. -/
def strTrim (s : String) : String :=
  ⟨((s.data.dropWhile charIsSpace).reverse.dropWhile charIsSpace).reverse⟩

/-- Python str.isdigit: nonempty and all decimal digits. -/
def strIsDigit (s : String) : Bool := !s.data.isEmpty && s.data.all charIsDigit

/-- Value of int(...) on an all-digit string. -/
def strToNat (s : String) : ℕ := s.data.foldl (fun n c => 10 * n + (c.toNat - 48)) 0

/-- Python one-character indexing value_str[0] as a one-character string. -/
def strFirst (s : String) : String := ⟨s.data.take 1⟩

/-- Python truthiness of a string: empty is falsy. -/
def strIsEmpty (s : String) : Bool := s.data.isEmpty

/-- Ordered-dictionary assignment: overwrite the value at an existing key in
place, otherwise append, as Python dict assignment behaves. -/
def updateAssoc (acc : List (String × String)) (k v : String) : List (String × String) :=
  if acc.any (fun p => p.1 == k) then
    acc.map (fun p => if p.1 == k then (k, v) else p)
  else acc ++ [(k, v)]

/-- Embeds pipeline.py _normalize_answer_key over an ordered association
list (Python dicts preserve insertion order). -/
def _normalize_answer_key (raw : List (String × String)) : List (String × String) :=
  raw.foldl (fun acc kv =>
    let key1 := if strStartsWith (strLower kv.1) "q_" then kv.1.drop 2 else kv.1
    let key2 := if strIsDigit key1 then "q_" ++ toString (strToNat key1) else key1
    let v := strUpper (strTrim kv.2)
    if strIsEmpty v then acc else updateAssoc acc key2 (strFirst v)) []

/-- Key normalization as the specification words it: strip the
case-insensitive alias q_ then rewrite purely numeric keys canonically. -/
def specCanonKey (k : String) : String :=
  let stripped := if strStartsWith (strLower k) "q_" then k.drop 2 else k
  if strIsDigit stripped then "q_" ++ toString (strToNat stripped) else stripped

/-- Value normalization as the specification words it: strip, upper-case,
keep the first character, drop entries that normalize to empty. -/
def specCanonValue (v : String) : Option String :=
  let s := strUpper (strTrim v)
  if strIsEmpty s then none else some (strFirst s)

/-- Ascending sort of naturals, modelling Python sorted on ints. -/
def sortNat (l : List ℕ) : List ℕ := l.insertionSort (· ≤ ·)

/-- Loop body of _cluster_1d on the (already sorted) tail: start a new
cluster when the gap from the last appended value exceeds the threshold. -/
def clusterFold (gap : ℕ) : List ℕ → List (List ℕ) → List ℕ → List (List ℕ)
  | cur, done, [] => done ++ [cur]
  | cur, done, v :: vs =>
    if gap < v - cur.getLastD 0 then clusterFold gap [v] (done ++ [cur]) vs
    else clusterFold gap (cur ++ [v]) done vs

/-- Embeds pipeline.py _cluster_1d: sort, group by gap, replace every
cluster by the integer part of its mean. -/
def _cluster_1d (values : List ℕ) (gap : ℕ) : List ℕ :=
  match sortNat values with
  | [] => []
  | v :: vs => (clusterFold gap [v] [] vs).map (fun c => c.sum / c.length)

/-- Consecutive differences of a list of row positions, as rationals
(np.diff on an ascending subset). -/
def diffsQ (l : List ℕ) : List ℚ := (l.zip l.tail).map (fun p => (p.2 : ℚ) - (p.1 : ℚ))

/-- Population variance, as np.var computes it. -/
def varianceQ (l : List ℚ) : ℚ :=
  let m := l.sum / (l.length : ℚ)
  (l.map (fun x => (x - m) ^ 2)).sum / (l.length : ℚ)

/-- All contiguous windows of 52 row clusters, one per loop start index in
_derive_layout_from_circles. -/
def windows52 (ys : List ℕ) : List (List ℕ) :=
  (List.range (ys.length - 52 + 1)).map (fun s => (ys.drop s).take 52)

/-- Spacing variance of a window, the loop key of the window search. -/
def windowVar (w : List ℕ) : ℚ := varianceQ (diffsQ w)

/-- The first contiguous window of 52 row clusters with minimal spacing
variance, exactly the best_subset loop (strict comparison keeps the
earliest minimum). -/
def bestWindow (ys : List ℕ) : List ℕ := argMinD windowVar [] (windows52 ys)

/-- Integer median as int(np.median(...)) computes it for naturals. -/
def medianNat (l : List ℕ) : ℕ :=
  let s := sortNat l
  let n := s.length
  if n % 2 = 1 then s.getD (n / 2) 0
  else (s.getD (n / 2 - 1) 0 + s.getD (n / 2) 0) / 2

/-- The rightmost 15 x-position clusters, sorted(x_centers)[-15:]. -/
def rightmost15 (xcs : List ℕ) : List ℕ := (sortNat xcs).drop (xcs.length - 15)

/-- Dynamically derived layout: 52 absolute row positions, three groups of
five option x-positions, inferred bubble radius. -/
structure DynLayout where
  rows : List ℕ
  columns : List (List ℕ)
  radius : Option ℕ
  deriving DecidableEq

/-- Embeds pipeline.py _derive_layout_from_circles, taking the HoughCircles
detections (already rounded to integers) as input. -/
def _derive_layout_from_circles (circles : Option (List (ℕ × ℕ × ℕ))) : Option DynLayout :=
  match circles with
  | none => none
  | some cs =>
    let xs := cs.map (fun c => c.1)
    let ys := cs.map (fun c => c.2.1)
    let rs := cs.map (fun c => c.2.2)
    let xCenters := _cluster_1d xs 8
    let yCenters := _cluster_1d ys 8
    if xCenters.length < 15 ∨ yCenters.length < 40 then none
    else
      let xKept := rightmost15 xCenters
      let ySorted := sortNat yCenters
      let yFinal := if 52 < ySorted.length then bestWindow ySorted else ySorted
      if yFinal.length ≠ 52 then none
      else
        some { rows := yFinal,
               columns := [xKept.take 5, (xKept.drop 5).take 5, (xKept.drop 10).take 5],
               radius := if rs.isEmpty then none else some (medianNat rs) }

/-- The manual_corners option as run_pipeline receives it: absent, a
rectangular numeric (n,2) array, or a value on which the float32 array
conversion raises. -/
inductive ManualCorners where
  | absent
  | grid (pts : List Pt)
  | malformed
  deriving DecidableEq

/-- The caller options of run_pipeline relevant to corner strategy,
layout derivation and decision thresholds. -/
structure PipelineOptions where
  threshold : Option ℚ
  smart_align : Bool
  skip_warp : Bool
  manual_corners : ManualCorners
  deriving DecidableEq

/-- Outcomes of the opaque image-analysis primitives for one invocation:
original image dimensions, the corner detectors run on the search copy
(already rescaled to original coordinates), the dimensions the perspective
warp would produce, the Hough circle detections used by smart alignment,
and the per-question per-option fill scores sampled by the ink scorer. -/
structure ImageOracle where
  originalW : ℕ
  originalH : ℕ
  markerCorners : Option (List Pt)
  documentCorners : Option (List Pt)
  warpW : ℕ
  warpH : ℕ
  circles : Option (List (ℕ × ℕ × ℕ))
  fills : ℕ → Fin 5 → ℚ

/-- Embeds pipeline.py _resize_to_width on image dimensions. -/
def _resize_to_width (w h target : ℕ) : ℕ × ℕ :=
  if w = 0 then (w, h)
  else if w = target then (w, h)
  else (target, max 1 (h * target / w))

/-- Result of the corner-strategy cascade of run_pipeline: accumulated
warnings, corner mode, the corners variable, and the dimensions of the
warped (or fallback original) image. -/
structure CornerOutcome where
  warnList : List String
  mode : String
  corners : Option (List Pt)
  warpedW : ℕ
  warpedH : ℕ

/-- The corner-strategy cascade of run_pipeline: skip_warp first, then
manual corners (with the malformed-shape and conversion-error branches),
then marker detection, then document-edge fallback, then give-up.
Note that the invalid-shape branch keeps the malformed array in the
corners variable, as the source does. -/
def cornerStage (opts : PipelineOptions) (o : ImageOracle) : CornerOutcome :=
  if opts.skip_warp then
    { warnList := ["warp_skipped_by_user"], mode := "skipped", corners := none,
      warpedW := o.originalW, warpedH := o.originalH }
  else
    match opts.manual_corners with
    | .grid pts =>
      if pts.length = 4 then
        { warnList := [], mode := "manual", corners := some (_order_points pts),
          warpedW := o.warpW, warpedH := o.warpH }
      else
        { warnList := ["invalid_manual_corners"], mode := "manual_invalid", corners := some pts,
          warpedW := o.originalW, warpedH := o.originalH }
    | .malformed =>
      { warnList := ["manual_corners_error"], mode := "manual_error", corners := none,
        warpedW := o.originalW, warpedH := o.originalH }
    | .absent =>
      match o.markerCorners with
      | some c =>
        { warnList := [], mode := "auto", corners := some (_order_points c),
          warpedW := o.warpW, warpedH := o.warpH }
      | none =>
        match o.documentCorners with
        | some c =>
          { warnList := [], mode := "auto", corners := some (_order_points c),
            warpedW := o.warpW, warpedH := o.warpH }
        | none =>
          { warnList := ["markers_not_found"], mode := "not_found", corners := none,
            warpedW := o.originalW, warpedH := o.originalH }

/-- The five fill scores of one question row. -/
def fillRow (fills : ℕ → Fin 5 → ℚ) (q : ℕ) : List ℚ :=
  [fills q 0, fills q 1, fills q 2, fills q 3, fills q 4]

/-- Number of questions (out of the 156 of the form) whose row decision
selects an option; the marked_count of run_pipeline. -/
def selectedCount (threshold : ℚ) (fills : ℕ → Fin 5 → ℚ) : ℕ :=
  ((List.range 156).filter
    (fun i => (scanRowSelect threshold (fillRow fills (i + 1))).isSome)).length

/-- Number of ambiguous questions: no selection but ink at least 0.22 and
contrast at least 0.12, as run_pipeline counts them. -/
def ambiguousCount (threshold : ℚ) (fills : ℕ → Fin 5 → ℚ) : ℕ :=
  ((List.range 156).filter (fun i =>
    (scanRowSelect threshold (fillRow fills (i + 1))).isNone &&
    decide ((22:ℚ)/100 ≤ (rowInkContrast (fillRow fills (i + 1))).1) &&
    decide ((12:ℚ)/100 ≤ (rowInkContrast (fillRow fills (i + 1))).2))).length

/-- The derived_layout variable of run_pipeline: a dynamic layout is
attempted only when smart alignment is requested. -/
def derivedLayout (opts : PipelineOptions) (o : ImageOracle) : Option DynLayout :=
  if opts.smart_align then _derive_layout_from_circles o.circles else none

/-- The warnings list of run_pipeline, in the order the source appends:
corner-stage warnings, smart_align_failed, mark-count warnings,
alignment_unreliable, needs_review. -/
def pipelineWarnings (opts : PipelineOptions) (o : ImageOracle) : List String :=
  (cornerStage opts o).warnList ++
  (if opts.smart_align && (derivedLayout opts o).isNone then ["smart_align_failed"] else []) ++
  (if selectedCount (pyOrThreshold opts.threshold) o.fills = 0 then ["no_marks_detected"]
   else if selectedCount (pyOrThreshold opts.threshold) o.fills < 15 then ["low_marks_detected"]
   else []) ++
  (if (cornerStage opts o).corners.isNone && (derivedLayout opts o).isNone then
    ["alignment_unreliable"] else []) ++
  (if 0 < ambiguousCount (pyOrThreshold opts.threshold) o.fills then ["needs_review"] else [])

/-- The fields of the run_pipeline result record that the claims concern. -/
structure PipelineResult where
  warnings : List String
  cornerMode : String
  markersFound : Bool
  cornerPoints : Option (List Pt)
  dimWidth : ℕ
  dimHeight : ℕ
  smartAlignUsed : Bool
  markedCount : ℕ
  deriving DecidableEq

/-- Embeds pipeline.py run_pipeline over the oracle of image-analysis
outcomes. -/
def run_pipeline (opts : PipelineOptions) (o : ImageOracle) : PipelineResult :=
  { warnings := pipelineWarnings opts o,
    cornerMode := (cornerStage opts o).mode,
    markersFound := (cornerStage opts o).corners.isSome,
    cornerPoints := (cornerStage opts o).corners,
    dimWidth := (_resize_to_width (cornerStage opts o).warpedW (cornerStage opts o).warpedH 2000).1,
    dimHeight := (_resize_to_width (cornerStage opts o).warpedW (cornerStage opts o).warpedH 2000).2,
    smartAlignUsed := (derivedLayout opts o).isSome,
    markedCount := selectedCount (pyOrThreshold opts.threshold) o.fills }

/-- A JSON value as json.loads may produce for the manualCorners form
field; containers other than arrays and scalars other than numbers are
collapsed into one constructor since the parser rejects them uniformly. -/
inductive Json where
  | num (q : ℚ)
  | str (s : String)
  | arr (l : List Json)
  | other

/-- The manualCorners form field as the route sees it: falsy (absent or
empty), a string json.loads raises on, or parsed JSON. -/
inductive CornerFieldInput where
  | absent
  | unparsable
  | parsed (j : Json)

/-- One point entry of the manual corner list: a two-element numeric
array. -/
def parsePoint : Json → Option Pt
  | .arr [.num a, .num b] => some ⟨a, b⟩
  | _ => none

/-- Embeds main.py _parse_manual_corners: returns the validated 4x2 point
list and the was_invalid flag. -/
def _parse_manual_corners : CornerFieldInput → Option (List Pt) × Bool
  | .absent => (none, false)
  | .unparsable => (none, true)
  | .parsed j =>
    match j with
    | .arr l =>
      if l.length = 4 then
        match l.mapM parsePoint with
        | some pts => (some pts, false)
        | none => (none, true)
      else (none, true)
    | _ => (none, true)

/-- The response of the scan route: the ok flag and the pipeline result. -/
structure RouteResponse where
  ok : Bool
  result : PipelineResult

/-- Embeds the manual-corner handling of the main.py scan route: an empty
upload is rejected, otherwise the parsed corners (or none) are passed to
the pipeline and the invalid_manual_corners warning is appended to the
returned result when parsing flagged the field. -/
def scanRoute (contentNonempty : Bool) (cornersField : CornerFieldInput)
    (opts : PipelineOptions) (o : ImageOracle) : Option RouteResponse :=
  if contentNonempty = false then none
  else
    let parsed := _parse_manual_corners cornersField
    let optsUsed : PipelineOptions :=
      { opts with manual_corners :=
          match parsed.1 with
          | some pts => ManualCorners.grid pts
          | none => ManualCorners.absent }
    let r := run_pipeline optsUsed o
    let r2 := if parsed.2 then { r with warnings := r.warnings ++ ["invalid_manual_corners"] }
      else r
    some { ok := true, result := r2 }

/-- Fill oracle of a perfectly blank sheet. -/
def zeroFills : ℕ → Fin 5 → ℚ := fun _ _ => 0

/-- A concrete oracle: nothing detected, blank sheet. -/
def oracle0 : ImageOracle :=
  { originalW := 1000, originalH := 700, markerCorners := none, documentCorners := none,
    warpW := 900, warpH := 600, circles := none, fills := zeroFills }

/-- Default options: no overrides, no smart alignment. -/
def opts0 : PipelineOptions :=
  { threshold := none, smart_align := false, skip_warp := false,
    manual_corners := .absent }

/-- Options supplying a three-point manual corner list. -/
def optsManual3 : PipelineOptions :=
  { opts0 with manual_corners := .grid [⟨0, 0⟩, ⟨5, 0⟩, ⟨5, 5⟩] }

/-- Four points with a tied pair of coordinate sums, on which the ordering
rule is not idempotent. -/
def exC5 : List Pt := [⟨1, 4⟩, ⟨0, 0⟩, ⟨4, 1⟩, ⟨1, 2⟩]

/-- Four points with pairwise distinct coordinate sums and differences. -/
def exC5good : List Pt := [⟨0, 0⟩, ⟨10, 1⟩, ⟨9, 8⟩, ⟨1, 8⟩]

/-! ### Generic facts about the first-occurrence argmin and argmax folds -/

theorem foldl_min_mem {α : Type} (f : α → ℚ) (a : α) (l : List α) :
    l.foldl (fun best q => if f q < f best then q else best) a ∈ a :: l := by
  induction l generalizing a with
  | nil => simp
  | cons b t ih =>
    simp only [List.foldl]
    rcases List.mem_cons.mp (ih (if f b < f a then b else a)) with h1 | h1
    · rw [h1]
      by_cases hc : f b < f a <;> simp [hc]
    · simp [h1]

theorem foldl_min_le {α : Type} (f : α → ℚ) (a : α) (l : List α) :
    ∀ w ∈ a :: l, f (l.foldl (fun best q => if f q < f best then q else best) a) ≤ f w := by
  induction l generalizing a with
  | nil =>
    intro w hw
    simp at hw
    subst hw
    exact le_refl _
  | cons b t ih =>
    intro w hw
    simp only [List.foldl]
    by_cases hc : f b < f a
    · rw [if_pos hc]
      rcases List.mem_cons.mp hw with h1 | h1
      · rw [h1]
        exact le_trans (ih b b (by simp)) (le_of_lt hc)
      · exact ih b w h1
    · rw [if_neg hc]
      rcases List.mem_cons.mp hw with h1 | h1
      · rw [h1]
        exact ih a a (by simp)
      · rcases List.mem_cons.mp h1 with h2 | h2
        · rw [h2]
          exact le_trans (ih a a (by simp)) (not_lt.mp hc)
        · exact ih a w (by simp [h2])

theorem foldl_max_mem {α : Type} (f : α → ℚ) (a : α) (l : List α) :
    l.foldl (fun best q => if f best < f q then q else best) a ∈ a :: l := by
  induction l generalizing a with
  | nil => simp
  | cons b t ih =>
    simp only [List.foldl]
    rcases List.mem_cons.mp (ih (if f a < f b then b else a)) with h1 | h1
    · rw [h1]
      by_cases hc : f a < f b <;> simp [hc]
    · simp [h1]

theorem foldl_max_le {α : Type} (f : α → ℚ) (a : α) (l : List α) :
    ∀ w ∈ a :: l, f w ≤ f (l.foldl (fun best q => if f best < f q then q else best) a) := by
  induction l generalizing a with
  | nil =>
    intro w hw
    simp at hw
    subst hw
    exact le_refl _
  | cons b t ih =>
    intro w hw
    simp only [List.foldl]
    by_cases hc : f a < f b
    · rw [if_pos hc]
      rcases List.mem_cons.mp hw with h1 | h1
      · rw [h1]
        exact le_trans (le_of_lt hc) (ih b b (by simp))
      · exact ih b w h1
    · rw [if_neg hc]
      rcases List.mem_cons.mp hw with h1 | h1
      · rw [h1]
        exact ih a a (by simp)
      · rcases List.mem_cons.mp h1 with h2 | h2
        · rw [h2]
          exact le_trans (not_lt.mp hc) (ih a a (by simp))
        · exact ih a w (by simp [h2])

theorem argMinD_mem {α : Type} (f : α → ℚ) (d : α) {l : List α} (h : l ≠ []) :
    argMinD f d l ∈ l := by
  match l with
  | [] => exact absurd rfl h
  | p :: ps => exact foldl_min_mem f p ps

theorem argMinD_le {α : Type} (f : α → ℚ) (d : α) {l : List α} (h : l ≠ []) :
    ∀ w ∈ l, f (argMinD f d l) ≤ f w := by
  match l with
  | [] => exact absurd rfl h
  | p :: ps => exact foldl_min_le f p ps

theorem argMaxD_mem {α : Type} (f : α → ℚ) (d : α) {l : List α} (h : l ≠ []) :
    argMaxD f d l ∈ l := by
  match l with
  | [] => exact absurd rfl h
  | p :: ps => exact foldl_max_mem f p ps

theorem argMaxD_le {α : Type} (f : α → ℚ) (d : α) {l : List α} (h : l ≠ []) :
    ∀ w ∈ l, f w ≤ f (argMaxD f d l) := by
  match l with
  | [] => exact absurd rfl h
  | p :: ps => exact foldl_max_le f p ps

theorem argMinD_congr {α : Type} (f : α → ℚ) (d : α) {l l2 : List α}
    (hl : l ≠ []) (hl2 : l2 ≠ [])
    (hsub : ∀ x ∈ l2, x ∈ l) (hmem : argMinD f d l ∈ l2)
    (huniq : ∀ p ∈ l, ∀ q ∈ l, f p = f q → p = q) :
    argMinD f d l2 = argMinD f d l :=
  huniq _ (hsub _ (argMinD_mem f d hl2)) _ (argMinD_mem f d hl)
    (le_antisymm (argMinD_le f d hl2 _ hmem)
      (argMinD_le f d hl _ (hsub _ (argMinD_mem f d hl2))))

theorem argMaxD_congr {α : Type} (f : α → ℚ) (d : α) {l l2 : List α}
    (hl : l ≠ []) (hl2 : l2 ≠ [])
    (hsub : ∀ x ∈ l2, x ∈ l) (hmem : argMaxD f d l ∈ l2)
    (huniq : ∀ p ∈ l, ∀ q ∈ l, f p = f q → p = q) :
    argMaxD f d l2 = argMaxD f d l :=
  huniq _ (hsub _ (argMaxD_mem f d hl2)) _ (argMaxD_mem f d hl)
    (le_antisymm (argMaxD_le f d hl _ (hsub _ (argMaxD_mem f d hl2)))
      (argMaxD_le f d hl2 _ hmem))

/-- C5 counterexample: on the four points (1,4), (0,0), (4,1), (1,2), two of
which share the coordinate sum 5, applying the ordering rule twice does not
give the same quadruple as applying it once (the argmax of the sums moves
from (1,4) to the earlier duplicate produced at position 1), so the claim
that repetition is a fixed point for every four points is false. -/
theorem C5_order_points_counterexample :
    _order_points (_order_points exC5) ≠ _order_points exC5 := by
  have h1 : _order_points exC5 = [⟨0, 0⟩, ⟨4, 1⟩, ⟨1, 4⟩, ⟨1, 4⟩] := by
    norm_num [_order_points, exC5, argMinD, argMaxD, ptSum, ptDiff, pt0]
  have h2 : _order_points [(⟨0, 0⟩ : Pt), ⟨4, 1⟩, ⟨1, 4⟩, ⟨1, 4⟩] =
      [⟨0, 0⟩, ⟨4, 1⟩, ⟨4, 1⟩, ⟨1, 4⟩] := by
    norm_num [_order_points, argMinD, argMaxD, ptSum, ptDiff, pt0]
  rw [h1, h2]
  simp [Pt.mk.injEq]

/-- C5 amended: when the four points have pairwise distinct coordinate sums
and pairwise distinct coordinate differences, the ordering rule is a fixed
point under repetition, the unique point of minimal coordinate sum is
placed first and the unique point of maximal coordinate sum is placed
third, regardless of the input order of the four points. -/
theorem C5_order_points_amended (l : List Pt) (h4 : l.length = 4)
    (hs : ∀ p ∈ l, ∀ q ∈ l, ptSum p = ptSum q → p = q)
    (hd : ∀ p ∈ l, ∀ q ∈ l, ptDiff p = ptDiff q → p = q) :
    _order_points (_order_points l) = _order_points l ∧
    (∀ p ∈ l, (∀ q ∈ l, ptSum p ≤ ptSum q) → (_order_points l).getD 0 pt0 = p) ∧
    (∀ p ∈ l, (∀ q ∈ l, ptSum q ≤ ptSum p) → (_order_points l).getD 2 pt0 = p) := by
  have hne : l ≠ [] := by
    intro h
    rw [h] at h4
    simp at h4
  have hone : _order_points l ≠ [] := by simp [_order_points]
  have hsub : ∀ x ∈ _order_points l, x ∈ l := by
    intro x hx
    simp only [_order_points, List.mem_cons, List.not_mem_nil, or_false] at hx
    rcases hx with h | h | h | h <;> rw [h]
    · exact argMinD_mem _ _ hne
    · exact argMinD_mem _ _ hne
    · exact argMaxD_mem _ _ hne
    · exact argMaxD_mem _ _ hne
  refine ⟨?_, ?_, ?_⟩
  · have e1 : argMinD ptSum pt0 (_order_points l) = argMinD ptSum pt0 l :=
      argMinD_congr _ _ hne hone hsub (by simp [_order_points]) hs
    have e2 : argMinD ptDiff pt0 (_order_points l) = argMinD ptDiff pt0 l :=
      argMinD_congr _ _ hne hone hsub (by simp [_order_points]) hd
    have e3 : argMaxD ptSum pt0 (_order_points l) = argMaxD ptSum pt0 l :=
      argMaxD_congr _ _ hne hone hsub (by simp [_order_points]) hs
    have e4 : argMaxD ptDiff pt0 (_order_points l) = argMaxD ptDiff pt0 l :=
      argMaxD_congr _ _ hne hone hsub (by simp [_order_points]) hd
    show [argMinD ptSum pt0 (_order_points l), argMinD ptDiff pt0 (_order_points l),
      argMaxD ptSum pt0 (_order_points l), argMaxD ptDiff pt0 (_order_points l)] = _order_points l
    rw [e1, e2, e3, e4]
    rfl
  · intro p hp hmin
    have hmn : argMinD ptSum pt0 l = p :=
      hs _ (argMinD_mem _ _ hne) _ hp
        (le_antisymm (argMinD_le _ _ hne _ hp) (hmin _ (argMinD_mem _ _ hne)))
    simp [_order_points, hmn]
  · intro p hp hmax
    have hmx : argMaxD ptSum pt0 l = p :=
      hs _ (argMaxD_mem _ _ hne) _ hp
        (le_antisymm (hmax _ (argMaxD_mem _ _ hne)) (argMaxD_le _ _ hne _ hp))
    simp [_order_points, hmx]

/-- C5 amended witness at four points with pairwise distinct sums and
differences. -/
theorem C5_order_points_amended_witness :
    _order_points (_order_points exC5good) = _order_points exC5good ∧
    (∀ p ∈ exC5good, (∀ q ∈ exC5good, ptSum p ≤ ptSum q) →
      (_order_points exC5good).getD 0 pt0 = p) ∧
    (∀ p ∈ exC5good, (∀ q ∈ exC5good, ptSum q ≤ ptSum p) →
      (_order_points exC5good).getD 2 pt0 = p) :=
  C5_order_points_amended exC5good (by norm_num [exC5good])
    (by norm_num [exC5good, ptSum, Pt.mk.injEq])
    (by norm_num [exC5good, ptDiff, Pt.mk.injEq])

/-- C9: a requested threshold of 0 is falsy in Python, so run_pipeline
replaces it by the default 0.22 exactly as an absent threshold, making the
effective absolute ink floor 0.22; a small positive request such as 0.01 is
kept and clamped up to only 0.08, so the effective floor is strictly
smaller at the larger request 0.01 than at the request 0 and the floor is
not monotone in the requested threshold. -/
theorem C9_zero_threshold_floor :
    effectiveFloor (some 0) = 22/100 ∧ effectiveFloor none = 22/100 ∧
    effectiveFloor (some (1/100)) = 8/100 ∧
    (0:ℚ) < 1/100 ∧ effectiveFloor (some (1/100)) < effectiveFloor (some 0) := by
  norm_num [effectiveFloor, pyOrThreshold, minInkThreshold, min_def, max_def]

/-- C6: answer-key normalization maps a single entry by stripping the
case-insensitive q_ alias, rewriting purely numeric keys to q_(n), and
stripping, upper-casing and truncating the value to its first character;
the key Q_7 with value b-space becomes q_7 mapped to B, the key 12 becomes
q_12, and an entry whose value normalizes to the empty string is dropped. -/
theorem C6_answer_key_normalization (k v : String) :
    _normalize_answer_key [(k, v)] =
      (match specCanonValue v with
       | none => []
       | some c => [(specCanonKey k, c)]) ∧
    _normalize_answer_key [("Q_7", "b ")] = [("q_7", "B")] ∧
    _normalize_answer_key [("12", "cd")] = [("q_12", "C")] ∧
    ∀ k2 v2 : String, strIsEmpty (strUpper (strTrim v2)) = true →
      _normalize_answer_key [(k2, v2)] = [] := by
  refine ⟨?_, rfl, rfl, ?_⟩
  · simp only [_normalize_answer_key, List.foldl, specCanonValue, specCanonKey, updateAssoc]
    by_cases he : strIsEmpty (strUpper (strTrim v)) = true <;> simp [he]
  · intro k2 v2 he
    simp [_normalize_answer_key, he]

/-- C4: with skip_warp requested the corner mode is skipped, the
warp_skipped_by_user warning is present, the output dimensions are the
original dimensions resized to the canonical width 2000, and the skip
branch shadows every other corner strategy: the result does not depend on
the manual corner field, the marker detector or the edge fallback. -/
theorem C4_skip_warp (opts : PipelineOptions) (o : ImageOracle)
    (h : opts.skip_warp = true) :
    (run_pipeline opts o).cornerMode = "skipped" ∧
    "warp_skipped_by_user" ∈ (run_pipeline opts o).warnings ∧
    ((run_pipeline opts o).dimWidth, (run_pipeline opts o).dimHeight) =
      _resize_to_width o.originalW o.originalH 2000 ∧
    (∀ (m2 : ManualCorners) (mc md : Option (List Pt)),
      run_pipeline { opts with manual_corners := m2 }
        { o with markerCorners := mc, documentCorners := md } = run_pipeline opts o) := by
  refine ⟨?_, ?_, ?_, ?_⟩
  · simp [run_pipeline, cornerStage, h]
  · simp [run_pipeline, pipelineWarnings, cornerStage, h]
  · simp [run_pipeline, cornerStage, h]
  · intro m2 mc md
    simp [run_pipeline, pipelineWarnings, cornerStage, derivedLayout, h]

/-- C4 witness at a concrete skip-warp invocation. -/
theorem C4_skip_warp_witness :
    (run_pipeline { opts0 with skip_warp := true } oracle0).cornerMode = "skipped" ∧
    "warp_skipped_by_user" ∈ (run_pipeline { opts0 with skip_warp := true } oracle0).warnings ∧
    ((run_pipeline { opts0 with skip_warp := true } oracle0).dimWidth,
      (run_pipeline { opts0 with skip_warp := true } oracle0).dimHeight) =
      _resize_to_width oracle0.originalW oracle0.originalH 2000 ∧
    (∀ (m2 : ManualCorners) (mc md : Option (List Pt)),
      run_pipeline { { opts0 with skip_warp := true } with manual_corners := m2 }
        { oracle0 with markerCorners := mc, documentCorners := md } =
        run_pipeline { opts0 with skip_warp := true } oracle0) :=
  C4_skip_warp { opts0 with skip_warp := true } oracle0 rfl

/-- C10: with skip_warp requested and no dynamic layout derived (smart
alignment off or failed), the corners variable stays unset, so the result
carries both warp_skipped_by_user and alignment_unreliable, markersFound is
false and cornerPoints is absent. -/
theorem C10_skip_warp_alignment_unreliable (opts : PipelineOptions) (o : ImageOracle)
    (h : opts.skip_warp = true)
    (hnd : opts.smart_align = false ∨ _derive_layout_from_circles o.circles = none) :
    "warp_skipped_by_user" ∈ (run_pipeline opts o).warnings ∧
    "alignment_unreliable" ∈ (run_pipeline opts o).warnings ∧
    (run_pipeline opts o).markersFound = false ∧
    (run_pipeline opts o).cornerPoints = none := by
  have hder : derivedLayout opts o = none := by
    rcases hnd with h1 | h1
    · simp [derivedLayout, h1]
    · simp [derivedLayout, h1]
  refine ⟨?_, ?_, ?_, ?_⟩
  · simp [run_pipeline, pipelineWarnings, cornerStage, h]
  · simp [run_pipeline, pipelineWarnings, cornerStage, h, hder]
  · simp [run_pipeline, cornerStage, h]
  · simp [run_pipeline, cornerStage, h]

/-- C10 witness at a concrete skip-warp invocation with smart alignment
off. -/
theorem C10_skip_warp_alignment_unreliable_witness :
    "warp_skipped_by_user" ∈ (run_pipeline { opts0 with skip_warp := true } oracle0).warnings ∧
    "alignment_unreliable" ∈ (run_pipeline { opts0 with skip_warp := true } oracle0).warnings ∧
    (run_pipeline { opts0 with skip_warp := true } oracle0).markersFound = false ∧
    (run_pipeline { opts0 with skip_warp := true } oracle0).cornerPoints = none :=
  C10_skip_warp_alignment_unreliable { opts0 with skip_warp := true } oracle0 rfl (Or.inl rfl)

/-! ### Which strings each warning segment can contribute -/

theorem cornerStage_warnList_cases (opts : PipelineOptions) (o : ImageOracle) :
    ∀ w ∈ (cornerStage opts o).warnList,
      w = "warp_skipped_by_user" ∨ w = "invalid_manual_corners" ∨
      w = "manual_corners_error" ∨ w = "markers_not_found" := by
  intro w hw
  by_cases h1 : opts.skip_warp
  · simp [cornerStage, h1] at hw
    simp [hw]
  · rcases hmc : opts.manual_corners with _ | pts | _
    · rcases hm : o.markerCorners with _ | c
      · rcases hdoc : o.documentCorners with _ | c
        · simp [cornerStage, h1, hmc, hm, hdoc] at hw
          simp [hw]
        · simp [cornerStage, h1, hmc, hm, hdoc] at hw
      · simp [cornerStage, h1, hmc, hm] at hw
    · by_cases hl : pts.length = 4
      · simp [cornerStage, h1, hmc, hl] at hw
      · simp [cornerStage, h1, hmc, hl] at hw
        simp [hw]
    · simp [cornerStage, h1, hmc] at hw
      simp [hw]

theorem mem_pipelineWarnings (opts : PipelineOptions) (o : ImageOracle) (x : String) :
    x ∈ pipelineWarnings opts o ↔
      x ∈ (cornerStage opts o).warnList ∨
      x ∈ (if opts.smart_align && (derivedLayout opts o).isNone then
        ["smart_align_failed"] else ([] : List String)) ∨
      x ∈ (if selectedCount (pyOrThreshold opts.threshold) o.fills = 0 then
        ["no_marks_detected"]
        else if selectedCount (pyOrThreshold opts.threshold) o.fills < 15 then
          ["low_marks_detected"] else ([] : List String)) ∨
      x ∈ (if (cornerStage opts o).corners.isNone && (derivedLayout opts o).isNone then
        ["alignment_unreliable"] else ([] : List String)) ∨
      x ∈ (if 0 < ambiguousCount (pyOrThreshold opts.threshold) o.fills then
        ["needs_review"] else ([] : List String)) := by
  simp [pipelineWarnings, List.mem_append, or_assoc]

/-- C8: the no_marks_detected warning is present exactly when no question
row selects an option, low_marks_detected exactly when the selected count
is at least 1 and below 15, and the two warnings never occur together. -/
theorem C8_mark_count_warnings (opts : PipelineOptions) (o : ImageOracle) :
    ("no_marks_detected" ∈ (run_pipeline opts o).warnings ↔
      selectedCount (pyOrThreshold opts.threshold) o.fills = 0) ∧
    ("low_marks_detected" ∈ (run_pipeline opts o).warnings ↔
      (1 ≤ selectedCount (pyOrThreshold opts.threshold) o.fills ∧
        selectedCount (pyOrThreshold opts.threshold) o.fills < 15)) ∧
    ("no_marks_detected" ∉ (run_pipeline opts o).warnings ∨
      "low_marks_detected" ∉ (run_pipeline opts o).warnings) := by
  have hcorner : ∀ x : String, x ∈ (cornerStage opts o).warnList →
      x ≠ "no_marks_detected" ∧ x ≠ "low_marks_detected" := by
    intro x hx
    rcases cornerStage_warnList_cases opts o x hx with h | h | h | h <;> subst h <;>
      exact ⟨by decide, by decide⟩
  have hmain : ∀ x : String,
      x ∈ (run_pipeline opts o).warnings ↔
      x ∈ (cornerStage opts o).warnList ∨
      x ∈ (if opts.smart_align && (derivedLayout opts o).isNone then
        ["smart_align_failed"] else ([] : List String)) ∨
      x ∈ (if selectedCount (pyOrThreshold opts.threshold) o.fills = 0 then
        ["no_marks_detected"]
        else if selectedCount (pyOrThreshold opts.threshold) o.fills < 15 then
          ["low_marks_detected"] else ([] : List String)) ∨
      x ∈ (if (cornerStage opts o).corners.isNone && (derivedLayout opts o).isNone then
        ["alignment_unreliable"] else ([] : List String)) ∨
      x ∈ (if 0 < ambiguousCount (pyOrThreshold opts.threshold) o.fills then
        ["needs_review"] else ([] : List String)) := by
    intro x
    exact (by simp [run_pipeline] : x ∈ (run_pipeline opts o).warnings ↔
      x ∈ pipelineWarnings opts o).trans (mem_pipelineWarnings opts o x)
  set n := selectedCount (pyOrThreshold opts.threshold) o.fills with hn
  have hno : "no_marks_detected" ∈ (run_pipeline opts o).warnings ↔ n = 0 := by
    rw [hmain]
    constructor
    · intro h
      rcases h with h | h | h | h | h
      · exact absurd rfl (hcorner _ h).1
      · revert h
        split <;> simp
      · revert h
        split
        · intro _
          assumption
        · split <;> simp
      · revert h
        split <;> simp
      · revert h
        split <;> simp
    · intro h
      refine Or.inr (Or.inr (Or.inl ?_))
      simp [h]
  have hlow : "low_marks_detected" ∈ (run_pipeline opts o).warnings ↔ (1 ≤ n ∧ n < 15) := by
    rw [hmain]
    constructor
    · intro h
      rcases h with h | h | h | h | h
      · exact absurd rfl (hcorner _ h).2
      · revert h
        split <;> simp
      · revert h
        split
        · simp
        · split
          · intro _
            constructor
            · omega
            · assumption
          · simp
      · revert h
        split <;> simp
      · revert h
        split <;> simp
    · intro h
      refine Or.inr (Or.inr (Or.inl ?_))
      have h0 : ¬ n = 0 := by omega
      simp [h0, h.2]
  refine ⟨hno, hlow, ?_⟩
  by_cases h0 : n = 0
  · right
    rw [hlow]
    omega
  · left
    rw [hno]
    exact h0

/-- C3 counterexample: calling the pipeline with the three numeric points
(0,0), (5,0), (5,5) as manual corners yields corner mode manual_invalid and
the invalid_manual_corners warning as the claim says, but markersFound is
true, not false, because the malformed array is kept in the corners
variable; and the same malformed field sent through the scan route never
reaches the manual_invalid branch at all: the route parser rejects it, the
pipeline runs the automatic cascade, and with markers detected the corner
mode is auto with markersFound true. -/
theorem C3_manual_corners_counterexample :
    (run_pipeline optsManual3 oracle0).cornerMode = "manual_invalid" ∧
    "invalid_manual_corners" ∈ (run_pipeline optsManual3 oracle0).warnings ∧
    (run_pipeline optsManual3 oracle0).markersFound = true := by
  refine ⟨?_, ?_, ?_⟩
  · simp [run_pipeline, cornerStage, optsManual3, opts0]
  · simp [run_pipeline, pipelineWarnings, cornerStage, optsManual3, opts0]
  · simp [run_pipeline, cornerStage, optsManual3, opts0]

/-- C3 amended: a wrong-shaped numeric manual corner list does not fail the
pipeline: it returns normally with corner mode manual_invalid, the
invalid_manual_corners warning, the malformed points retained as corner
points (so markersFound is true, not false), and the unrectified image
resized to canonical width; a manual corner value on which the float
conversion raises instead yields mode manual_error with the
manual_corners_error warning and markersFound false; and a malformed
manual-corner form field on the scan route is rejected by the route parser,
so the pipeline runs with no manual corners and the route still answers ok,
appending invalid_manual_corners to the returned warnings. -/
theorem C3_manual_corners_amended (opts : PipelineOptions) (o : ImageOracle) (pts : List Pt)
    (hm : opts.manual_corners = ManualCorners.grid pts) (hn : pts.length ≠ 4)
    (hsw : opts.skip_warp = false) :
    ((run_pipeline opts o).cornerMode = "manual_invalid" ∧
      "invalid_manual_corners" ∈ (run_pipeline opts o).warnings ∧
      (run_pipeline opts o).markersFound = true ∧
      (run_pipeline opts o).cornerPoints = some pts ∧
      ((run_pipeline opts o).dimWidth, (run_pipeline opts o).dimHeight) =
        _resize_to_width o.originalW o.originalH 2000) ∧
    (∀ (opts2 : PipelineOptions) (o2 : ImageOracle),
      opts2.manual_corners = ManualCorners.malformed → opts2.skip_warp = false →
      (run_pipeline opts2 o2).cornerMode = "manual_error" ∧
      "manual_corners_error" ∈ (run_pipeline opts2 o2).warnings ∧
      (run_pipeline opts2 o2).markersFound = false) ∧
    (∀ (cf : CornerFieldInput) (opts3 : PipelineOptions) (o3 : ImageOracle),
      (_parse_manual_corners cf).2 = true →
      ∃ resp : RouteResponse, scanRoute true cf opts3 o3 = some resp ∧ resp.ok = true ∧
        "invalid_manual_corners" ∈ resp.result.warnings) := by
  refine ⟨⟨?_, ?_, ?_, ?_, ?_⟩, ?_, ?_⟩
  · simp [run_pipeline, cornerStage, hm, hn, hsw]
  · simp [run_pipeline, pipelineWarnings, cornerStage, hm, hn, hsw]
  · simp [run_pipeline, cornerStage, hm, hn, hsw]
  · simp [run_pipeline, cornerStage, hm, hn, hsw]
  · simp [run_pipeline, cornerStage, hm, hn, hsw]
  · intro opts2 o2 hm2 hsw2
    refine ⟨?_, ?_, ?_⟩
    · simp [run_pipeline, cornerStage, hm2, hsw2]
    · simp [run_pipeline, pipelineWarnings, cornerStage, hm2, hsw2]
    · simp [run_pipeline, cornerStage, hm2, hsw2]
  · intro cf opts3 o3 hinv
    refine ⟨_, rfl, ?_, ?_⟩
    · simp [scanRoute]
    · simp [scanRoute, hinv]

/-- C3 amended witness at the concrete three-point manual corner list. -/
theorem C3_manual_corners_amended_witness :
    ((run_pipeline optsManual3 oracle0).cornerMode = "manual_invalid" ∧
      "invalid_manual_corners" ∈ (run_pipeline optsManual3 oracle0).warnings ∧
      (run_pipeline optsManual3 oracle0).markersFound = true ∧
      (run_pipeline optsManual3 oracle0).cornerPoints =
        some [⟨0, 0⟩, ⟨5, 0⟩, ⟨5, 5⟩] ∧
      ((run_pipeline optsManual3 oracle0).dimWidth,
        (run_pipeline optsManual3 oracle0).dimHeight) =
        _resize_to_width oracle0.originalW oracle0.originalH 2000) ∧
    (∀ (opts2 : PipelineOptions) (o2 : ImageOracle),
      opts2.manual_corners = ManualCorners.malformed → opts2.skip_warp = false →
      (run_pipeline opts2 o2).cornerMode = "manual_error" ∧
      "manual_corners_error" ∈ (run_pipeline opts2 o2).warnings ∧
      (run_pipeline opts2 o2).markersFound = false) ∧
    (∀ (cf : CornerFieldInput) (opts3 : PipelineOptions) (o3 : ImageOracle),
      (_parse_manual_corners cf).2 = true →
      ∃ resp : RouteResponse, scanRoute true cf opts3 o3 = some resp ∧ resp.ok = true ∧
        "invalid_manual_corners" ∈ resp.result.warnings) :=
  C3_manual_corners_amended optsManual3 oracle0 [⟨0, 0⟩, ⟨5, 0⟩, ⟨5, 5⟩] rfl
    (by simp) rfl

/-! ### Dynamic-layout acceptance -/

theorem sortNat_length (l : List ℕ) : (sortNat l).length = l.length :=
  (List.perm_insertionSort _ l).length_eq

theorem windows52_self {ys : List ℕ} (h : ys.length = 52) : windows52 ys = [ys] := by
  have ht : ys.take 52 = ys := by
    rw [← h]
    exact List.take_length ys
  unfold windows52
  rw [h]
  norm_num [List.range_succ, ht]

theorem windows52_ne_nil {ys : List ℕ} (_h : 52 ≤ ys.length) : windows52 ys ≠ [] := by
  have hlen : (windows52 ys).length = ys.length - 52 + 1 := by
    simp [windows52]
  intro hcon
  rw [hcon] at hlen
  simp at hlen

theorem bestWindow_mem {ys : List ℕ} (h : windows52 ys ≠ []) : bestWindow ys ∈ windows52 ys :=
  argMinD_mem _ _ h

theorem bestWindow_min {ys : List ℕ} (h : windows52 ys ≠ []) :
    ∀ w ∈ windows52 ys, windowVar (bestWindow ys) ≤ windowVar w :=
  argMinD_le _ _ h

theorem yfinal_window {yso : List ℕ}
    (h : (if 52 < yso.length then bestWindow yso else yso).length = 52) :
    (if 52 < yso.length then bestWindow yso else yso) ∈ windows52 yso ∧
    ∀ w ∈ windows52 yso,
      windowVar (if 52 < yso.length then bestWindow yso else yso) ≤ windowVar w := by
  by_cases h52 : 52 < yso.length
  · rw [if_pos h52] at h ⊢
    exact ⟨bestWindow_mem (windows52_ne_nil (le_of_lt h52)),
      bestWindow_min (windows52_ne_nil (le_of_lt h52))⟩
  · rw [if_neg h52] at h ⊢
    rw [windows52_self h]
    refine ⟨by simp, ?_⟩
    intro w hw
    simp at hw
    subst hw
    exact le_refl _

theorem derive_accept (cs : List (ℕ × ℕ × ℕ)) (L : DynLayout)
    (hL : _derive_layout_from_circles (some cs) = some L) :
    L.rows.length = 52 ∧
    15 ≤ (_cluster_1d (cs.map (fun c => c.1)) 8).length ∧
    L.rows ∈ windows52 (sortNat (_cluster_1d (cs.map (fun c => c.2.1)) 8)) ∧
    (∀ w ∈ windows52 (sortNat (_cluster_1d (cs.map (fun c => c.2.1)) 8)),
      windowVar L.rows ≤ windowVar w) ∧
    L.columns = [(rightmost15 (_cluster_1d (cs.map (fun c => c.1)) 8)).take 5,
      ((rightmost15 (_cluster_1d (cs.map (fun c => c.1)) 8)).drop 5).take 5,
      ((rightmost15 (_cluster_1d (cs.map (fun c => c.1)) 8)).drop 10).take 5] := by
  simp only [_derive_layout_from_circles] at hL
  by_cases h1 : ((_cluster_1d (cs.map (fun c => c.1)) 8).length < 15 ∨
      (_cluster_1d (cs.map (fun c => c.2.1)) 8).length < 40)
  · rw [if_pos h1] at hL
    exact absurd hL (by simp)
  · rw [if_neg h1] at hL
    by_cases hlen : (if 52 < (sortNat (_cluster_1d (cs.map (fun c => c.2.1)) 8)).length then
        bestWindow (sortNat (_cluster_1d (cs.map (fun c => c.2.1)) 8))
      else sortNat (_cluster_1d (cs.map (fun c => c.2.1)) 8)).length ≠ 52
    · rw [if_pos hlen] at hL
      exact absurd hL (by simp)
    · rw [if_neg hlen] at hL
      rw [Option.some.injEq] at hL
      subst hL
      push_neg at h1 hlen
      obtain ⟨hw1, hw2⟩ := yfinal_window hlen
      exact ⟨hlen, by omega, hw1, hw2, rfl⟩

/-- C7: with smart alignment requested, a derived layout is used only when
it has exactly 52 rows — chosen, when more row clusters exist, as a
contiguous window of 52 with minimal spacing variance — and at least 15
x-position clusters were found, of which the rightmost 15 form the three
option groups; whenever derivation fails, the smart_align_failed warning is
appended and the static layout is used (no dynamic layout marked in the
result). -/
theorem C7_smart_align_acceptance (opts : PipelineOptions) (o : ImageOracle)
    (hsa : opts.smart_align = true) :
    (∀ L, _derive_layout_from_circles o.circles = some L →
      L.rows.length = 52 ∧
      (∃ cs, o.circles = some cs ∧
        15 ≤ (_cluster_1d (cs.map (fun c => c.1)) 8).length ∧
        L.rows ∈ windows52 (sortNat (_cluster_1d (cs.map (fun c => c.2.1)) 8)) ∧
        (∀ w ∈ windows52 (sortNat (_cluster_1d (cs.map (fun c => c.2.1)) 8)),
          windowVar L.rows ≤ windowVar w) ∧
        L.columns = [(rightmost15 (_cluster_1d (cs.map (fun c => c.1)) 8)).take 5,
          ((rightmost15 (_cluster_1d (cs.map (fun c => c.1)) 8)).drop 5).take 5,
          ((rightmost15 (_cluster_1d (cs.map (fun c => c.1)) 8)).drop 10).take 5]) ∧
      (run_pipeline opts o).smartAlignUsed = true ∧
      "smart_align_failed" ∉ (run_pipeline opts o).warnings) ∧
    (_derive_layout_from_circles o.circles = none →
      "smart_align_failed" ∈ (run_pipeline opts o).warnings ∧
      (run_pipeline opts o).smartAlignUsed = false) := by
  constructor
  · intro L hL
    have hcs : ∃ cs, o.circles = some cs := by
      rcases hc : o.circles with _ | cs
      · rw [hc] at hL
        simp [_derive_layout_from_circles] at hL
      · exact ⟨cs, rfl⟩
    obtain ⟨cs, hc⟩ := hcs
    rw [hc] at hL
    obtain ⟨ha, hb, hm, hmin, hcol⟩ := derive_accept cs L hL
    have hd : derivedLayout opts o = some L := by
      simp [derivedLayout, hsa, hc, hL]
    refine ⟨ha, ⟨cs, hc, hb, hm, hmin, hcol⟩, ?_, ?_⟩
    · simp [run_pipeline, hd]
    · intro hcontra
      rw [show (run_pipeline opts o).warnings = pipelineWarnings opts o from rfl,
        mem_pipelineWarnings] at hcontra
      rcases hcontra with h | h | h | h | h
      · rcases cornerStage_warnList_cases opts o _ h with h2 | h2 | h2 | h2 <;>
          exact absurd h2 (by decide)
      · rw [hd] at h
        simp at h
      · revert h
        split
        · simp
        · split <;> simp
      · revert h
        split <;> simp
      · revert h
        split <;> simp
  · intro hnone
    have hd : derivedLayout opts o = none := by
      simp [derivedLayout, hsa, hnone]
    constructor
    · rw [show (run_pipeline opts o).warnings = pipelineWarnings opts o from rfl,
        mem_pipelineWarnings]
      refine Or.inr (Or.inl ?_)
      simp [hsa, hd]
    · simp [run_pipeline, hd]

/-- C7 witness at a concrete smart-align invocation on which circle
detection finds nothing. -/
theorem C7_smart_align_acceptance_witness :
    (∀ L, _derive_layout_from_circles oracle0.circles = some L →
      L.rows.length = 52 ∧
      (∃ cs, oracle0.circles = some cs ∧
        15 ≤ (_cluster_1d (cs.map (fun c => c.1)) 8).length ∧
        L.rows ∈ windows52 (sortNat (_cluster_1d (cs.map (fun c => c.2.1)) 8)) ∧
        (∀ w ∈ windows52 (sortNat (_cluster_1d (cs.map (fun c => c.2.1)) 8)),
          windowVar L.rows ≤ windowVar w) ∧
        L.columns = [(rightmost15 (_cluster_1d (cs.map (fun c => c.1)) 8)).take 5,
          ((rightmost15 (_cluster_1d (cs.map (fun c => c.1)) 8)).drop 5).take 5,
          ((rightmost15 (_cluster_1d (cs.map (fun c => c.1)) 8)).drop 10).take 5]) ∧
      (run_pipeline { opts0 with smart_align := true } oracle0).smartAlignUsed = true ∧
      "smart_align_failed" ∉
        (run_pipeline { opts0 with smart_align := true } oracle0).warnings) ∧
    (_derive_layout_from_circles oracle0.circles = none →
      "smart_align_failed" ∈
        (run_pipeline { opts0 with smart_align := true } oracle0).warnings ∧
      (run_pipeline { opts0 with smart_align := true } oracle0).smartAlignUsed = false) :=
  C7_smart_align_acceptance { opts0 with smart_align := true } oracle0 rfl

/-! ### Sorted-row facts for the decision engine -/

theorem rowSorted_map_snd (fills : List ℚ) :
    (rowSorted fills).map Prod.snd = sortedVals fills := by
  unfold rowSorted sortedVals
  rw [List.map_insertionSort descPair descQ Prod.snd fills.enum
    (fun a _ b _ => Iff.rfl), List.enum_map_snd]

theorem rowSorted_length (fills : List ℚ) : (rowSorted fills).length = fills.length := by
  have h := (List.perm_insertionSort descPair fills.enum).length_eq
  rw [List.enum_length] at h
  exact h

theorem sortedVals_length (fills : List ℚ) : (sortedVals fills).length = fills.length :=
  (List.perm_insertionSort descQ fills).length_eq

theorem sortedVals_perm (fills : List ℚ) : (sortedVals fills).Perm fills :=
  List.perm_insertionSort descQ fills

theorem sortedVals_sorted (fills : List ℚ) : List.Sorted descQ (sortedVals fills) :=
  List.sorted_insertionSort descQ fills

theorem sortedVals_head_max (fills : List ℚ) :
    ∀ s ∈ fills, s ≤ (sortedVals fills).headD 0 := by
  intro s hs
  have hmem : s ∈ sortedVals fills := ((sortedVals_perm fills).mem_iff).mpr hs
  rcases hsv : sortedVals fills with _ | ⟨a, tl⟩
  · rw [hsv] at hmem
    simp at hmem
  · have hsorted := sortedVals_sorted fills
    rw [hsv] at hsorted hmem
    simp only [List.headD_cons]
    rcases List.mem_cons.mp hmem with h | h
    · exact le_of_eq h
    · exact (List.sorted_cons.mp hsorted).1 s h

theorem scanRowSelect_isSome_iff (thr : ℚ) (fills : List ℚ) (h2 : 2 ≤ fills.length) :
    (scanRowSelect thr fills).isSome ↔ selPredSorted thr (sortedVals fills) := by
  rcases hrs : rowSorted fills with _ | ⟨top, tl⟩
  · exfalso
    have hl := rowSorted_length fills
    rw [hrs] at hl
    simp at hl
    omega
  rcases tl with _ | ⟨second, rest⟩
  · exfalso
    have hl := rowSorted_length fills
    rw [hrs] at hl
    simp at hl
    omega
  have hsv : sortedVals fills = top.2 :: second.2 :: rest.map Prod.snd := by
    rw [← rowSorted_map_snd, hrs]
    rfl
  rw [hsv]
  simp only [scanRowSelect, hrs, selPredSorted, List.headD_cons]
  split_ifs with hA hB
  · simp only [Option.isSome_some, true_iff]
    exact Or.inl hA
  · simp only [Option.isSome_some, true_iff]
    exact Or.inr hB
  · simp only [Option.isSome_none, Bool.false_eq_true, false_iff]
    intro h
    rcases h with h | h
    · exact hA h
    · exact hB h

theorem exists_five {l : List ℚ} (h : l.length = 5) :
    ∃ a b c d e, l = [a, b, c, d, e] := by
  rcases l with _ | ⟨a, _ | ⟨b, _ | ⟨c, _ | ⟨d, _ | ⟨e, _ | ⟨f, tl⟩⟩⟩⟩⟩⟩ <;> simp_all

/-- C1: for a five-score row with nonnegative fills, the decision engine
selects an option exactly when the strict test or the tolerant fallback of
the specification holds, and any selected option is a top-scoring one
(its fill equals the row maximum). -/
theorem C1_decision_rule (thr : ℚ) (fills : List ℚ)
    (h5 : fills.length = 5) (hpos : ∀ s ∈ fills, 0 ≤ s) :
    ((scanRowSelect thr fills).isSome ↔
      (specStrictSel thr fills ∨ specTolerantSel thr fills)) ∧
    (∀ i, scanRowSelect thr fills = some i →
      i < fills.length ∧ fills.getD i 0 = specTop fills ∧
        ∀ s ∈ fills, s ≤ fills.getD i 0) := by
  constructor
  · have h2 : 2 ≤ fills.length := by omega
    rw [scanRowSelect_isSome_iff thr fills h2]
    have hlen : (sortedVals fills).length = 5 := by rw [sortedVals_length, h5]
    obtain ⟨a, b, c, d, e, hsv⟩ := exists_five hlen
    have hb : 0 ≤ b := hpos b ((sortedVals_perm fills).subset (by rw [hsv]; simp))
    have hc : 0 ≤ c := hpos c ((sortedVals_perm fills).subset (by rw [hsv]; simp))
    have hd : 0 ≤ d := hpos d ((sortedVals_perm fills).subset (by rw [hsv]; simp))
    have he : 0 ≤ e := hpos e ((sortedVals_perm fills).subset (by rw [hsv]; simp))
    rw [hsv]
    simp only [selPredSorted, specStrictSel, specTolerantSel, specTop, specSecond,
      specOtherMean, hsv, List.headD_cons, List.drop_one, List.tail_cons, List.sum_cons,
      List.sum_nil, List.length_cons, List.length_nil, minRelativeRatio, minGapRatio]
    push_cast
    constructor
    · rintro (⟨h1, h2x, h3⟩ | ⟨h1, h2x, h3⟩)
      · exact Or.inl ⟨h1, by linarith, by linarith⟩
      · have h1a : minInkThreshold thr - 5/100 ≤ a :=
          le_trans (le_max_right ((5:ℚ)/100) (minInkThreshold thr - 5/100)) h1
        exact Or.inr ⟨h1a, by linarith, by linarith⟩
    · rintro (⟨h1, h2x, h3⟩ | ⟨h1, h2x, h3⟩)
      · exact Or.inl ⟨h1, by linarith, by linarith⟩
      · have h5a : (5:ℚ)/100 ≤ a := by linarith
        exact Or.inr ⟨max_le h5a h1, by linarith, by linarith⟩
  · intro i hi
    rcases hrs : rowSorted fills with _ | ⟨top, tl⟩
    · exfalso
      have hl := rowSorted_length fills
      rw [hrs] at hl
      simp at hl
      omega
    rcases tl with _ | ⟨second, rest⟩
    · exfalso
      have hl := rowSorted_length fills
      rw [hrs] at hl
      simp at hl
      omega
    have htopi : i = top.1 := by
      simp only [scanRowSelect, hrs] at hi
      split_ifs at hi with hA hB
      · exact (Option.some.injEq _ _ ▸ hi).symm
      · exact (Option.some.injEq _ _ ▸ hi).symm
    have htopmem : top ∈ fills.enum := by
      have hmem : top ∈ rowSorted fills := by
        rw [hrs]
        exact List.mem_cons_self top _
      exact (List.perm_insertionSort descPair fills.enum).subset hmem
    have hget : fills[top.1]? = some top.2 := List.mem_enum_iff_getElem?.mp htopmem
    obtain ⟨hlt, hgete⟩ := List.getElem?_eq_some.mp hget
    have hgetd : fills.getD top.1 0 = top.2 := by
      rw [List.getD_eq_getElem fills 0 hlt, hgete]
    have hhead : specTop fills = top.2 := by
      unfold specTop
      rw [← rowSorted_map_snd, hrs]
      rfl
    subst htopi
    refine ⟨hlt, by rw [hgetd, hhead], ?_⟩
    intro s hs
    rw [hgetd, ← hhead]
    exact sortedVals_head_max fills s hs

/-- C1 witness at the row 1,0,0,0,0 with threshold 0.22. -/
theorem C1_decision_rule_witness :
    ((scanRowSelect (22/100) [(1:ℚ), 0, 0, 0, 0]).isSome ↔
      (specStrictSel (22/100) [(1:ℚ), 0, 0, 0, 0] ∨
        specTolerantSel (22/100) [(1:ℚ), 0, 0, 0, 0])) ∧
    (∀ i, scanRowSelect (22/100) [(1:ℚ), 0, 0, 0, 0] = some i →
      i < ([(1:ℚ), 0, 0, 0, 0]).length ∧
        ([(1:ℚ), 0, 0, 0, 0]).getD i 0 = specTop [(1:ℚ), 0, 0, 0, 0] ∧
        ∀ s ∈ [(1:ℚ), 0, 0, 0, 0], s ≤ ([(1:ℚ), 0, 0, 0, 0]).getD i 0) :=
  C1_decision_rule (22/100) [(1:ℚ), 0, 0, 0, 0] (by simp)
    (by intro s hs; simp at hs; rcases hs with rfl | rfl <;> norm_num)

theorem perm_set {α : Type} (l : List α) (i : ℕ) (a : α) (h : i < l.length) :
    (l.set i a).Perm (a :: l.eraseIdx i) := by
  induction l generalizing i with
  | nil => simp at h
  | cons x xs ih =>
    cases i with
    | zero => simp [List.set, List.eraseIdx]
    | succ n =>
      have hn : n < xs.length := by
        simp at h
        omega
      simp only [List.set, List.eraseIdx]
      exact ((ih n hn).cons x).trans (List.Perm.swap a x (xs.eraseIdx n))

theorem perm_self_getD {α : Type} (l : List α) (i : ℕ) (d : α) (h : i < l.length) :
    l.Perm (l.getD i d :: l.eraseIdx i) := by
  induction l generalizing i with
  | nil => simp at h
  | cons x xs ih =>
    cases i with
    | zero => simp [List.eraseIdx]
    | succ n =>
      have hn : n < xs.length := by
        simp at h
        omega
      simp only [List.getD_cons_succ, List.eraseIdx]
      exact ((ih n hn).cons x).trans (List.Perm.swap _ x (xs.eraseIdx n))

theorem sortedVals_head_getD (fills : List ℚ) (i : ℕ) (hi : i < fills.length)
    (hmax : ∀ s ∈ fills, s ≤ fills.getD i 0) :
    (sortedVals fills).headD 0 = fills.getD i 0 := by
  have hmem : fills.getD i 0 ∈ fills := by
    rw [List.getD_eq_getElem fills 0 hi]
    exact List.getElem_mem hi
  have h1 : fills.getD i 0 ≤ (sortedVals fills).headD 0 :=
    sortedVals_head_max fills _ hmem
  rcases hsv : sortedVals fills with _ | ⟨a, tl⟩
  · exfalso
    have hl := sortedVals_length fills
    rw [hsv] at hl
    simp at hl
    omega
  · have hamem : a ∈ fills := (sortedVals_perm fills).subset (by rw [hsv]; simp)
    rw [hsv] at h1
    simp only [List.headD_cons] at h1 ⊢
    exact le_antisymm (hmax a hamem) h1

theorem sortedVals_set_top (fills : List ℚ) (i : ℕ) (t2 : ℚ)
    (hi : i < fills.length)
    (hmax : ∀ s ∈ fills, s ≤ fills.getD i 0)
    (hle : fills.getD i 0 ≤ t2) :
    sortedVals (fills.set i t2) = t2 :: (sortedVals fills).tail := by
  rcases hsv : sortedVals fills with _ | ⟨a, tl⟩
  · exfalso
    have hl := sortedVals_length fills
    rw [hsv] at hl
    simp at hl
    omega
  have hhead : a = fills.getD i 0 := by
    have := sortedVals_head_getD fills i hi hmax
    rw [hsv] at this
    simpa using this
  have hsorted : List.Sorted descQ (a :: tl) := by
    have := sortedVals_sorted fills
    rwa [hsv] at this
  have htl : tl.Perm (fills.eraseIdx i) := by
    have hp1 : (a :: tl).Perm fills := by
      rw [← hsv]
      exact sortedVals_perm fills
    have hp2 : fills.Perm (a :: fills.eraseIdx i) := by
      rw [hhead]
      exact perm_self_getD fills i 0 hi
    exact (hp1.trans hp2).cons_inv
  have hperm : (sortedVals (fills.set i t2)).Perm (t2 :: tl) := by
    have hp3 : (fills.set i t2).Perm (t2 :: fills.eraseIdx i) := perm_set fills i t2 hi
    exact ((sortedVals_perm (fills.set i t2)).trans hp3).trans ((htl.symm).cons t2)
  have hsorted2 : List.Sorted descQ (t2 :: tl) := by
    rw [List.sorted_cons]
    refine ⟨?_, (List.sorted_cons.mp hsorted).2⟩
    intro b hb
    have hba : descQ a b := (List.sorted_cons.mp hsorted).1 b hb
    have : b ≤ a := hba
    show b ≤ t2
    rw [hhead] at this
    exact le_trans this hle
  have := List.eq_of_perm_of_sorted hperm (sortedVals_sorted (fills.set i t2)) hsorted2
  rw [this]
  simp

/-- C2: for a fixed row and threshold, raising the fill of a top-scoring
option (the i-th, holding the other four fills fixed) never turns a
selected row into an unselected one: the decision predicate is
upward-closed in the top score. -/
theorem C2_decision_monotone (thr t2 : ℚ) (fills : List ℚ) (i : ℕ)
    (h5 : fills.length = 5) (hi : i < fills.length)
    (hmax : ∀ s ∈ fills, s ≤ fills.getD i 0)
    (hle : fills.getD i 0 ≤ t2)
    (hsel : (scanRowSelect thr fills).isSome = true) :
    (scanRowSelect thr (fills.set i t2)).isSome = true := by
  have h2 : 2 ≤ fills.length := by omega
  have h2s : 2 ≤ (fills.set i t2).length := by
    rw [List.length_set]
    omega
  rw [scanRowSelect_isSome_iff thr fills h2] at hsel
  rw [scanRowSelect_isSome_iff thr (fills.set i t2) h2s,
    sortedVals_set_top fills i t2 hi hmax hle]
  rcases hsv : sortedVals fills with _ | ⟨a, tl⟩
  · exfalso
    have hl := sortedVals_length fills
    rw [hsv] at hl
    simp at hl
    omega
  have ha : a ≤ t2 := by
    have := sortedVals_head_getD fills i hi hmax
    rw [hsv] at this
    simp only [List.headD_cons] at this
    rw [this]
    exact hle
  rw [hsv] at hsel
  simp only [List.tail_cons]
  simp only [selPredSorted] at hsel ⊢
  rcases hsel with ⟨h1, h2x, h3⟩ | ⟨h1, h2x, h3⟩
  · exact Or.inl ⟨le_trans h1 ha, by linarith, by linarith⟩
  · exact Or.inr ⟨le_trans h1 ha, by linarith, by linarith⟩

/-- C2 witness: the selected row 1,0,0,0,0 stays selected when the top
fill is raised to 2. -/
theorem C2_decision_monotone_witness :
    (scanRowSelect (22/100) (([(1:ℚ), 0, 0, 0, 0]).set 0 2)).isSome = true :=
  C2_decision_monotone (22/100) 2 [(1:ℚ), 0, 0, 0, 0] 0 (by simp) (by simp)
    (by intro s hs; simp at hs; rcases hs with rfl | rfl <;> norm_num)
    (by norm_num)
    (by
      rw [scanRowSelect_isSome_iff (22/100) [(1:ℚ), 0, 0, 0, 0] (by simp)]
      have hsv : sortedVals [(1:ℚ), 0, 0, 0, 0] = [1, 0, 0, 0, 0] := by
        apply List.eq_of_perm_of_sorted (sortedVals_perm _)
          (sortedVals_sorted _)
        simp [List.sorted_cons, descQ]
      rw [hsv]
      simp only [selPredSorted, List.headD_cons, List.sum_cons, List.sum_nil,
        List.length_cons, List.length_nil]
      left
      refine ⟨?_, ?_, ?_⟩ <;> norm_num [minInkThreshold, minRelativeRatio, minGapRatio,
        min_def, max_def])
